import Mathlib

/-!
Verification of the FantasyMapCrafter in-memory map-editing core: the layer
data model, tile encoding, grid/hex coordinate transforms, and the paint
tools (small brush, large brush, flood fill, eraser).

JavaScript strings are shallowly embedded as lists of characters (`JStr`),
JavaScript numbers holding cell indices as `Int` (they may go negative at
the bounds checks) or `Nat` where the source only ever holds non-negative
values, and pixel coordinates as rationals.  A cell of a layer holds either
`none` (JS `null`) or an encoded tile string, exactly as in
`shared/schema.ts` (`tiles: (string | null)[][]`).
-/

/-- Shallow embedding of a JavaScript string as its list of characters. -/
abbrev JStr := List Char

/-- A cell of a layer: `null` or an encoded tile string (`shared/schema.ts`). -/
abbrev Cell := Option JStr

/-- The dense 2D array of cells of one layer, row major: `tiles[y][x]`. -/
abbrev Grid := List (List Cell)

/-- An `(x, y)` cell coordinate; `Int` because the JS code compares against 0. -/
abbrev Pos := Int × Int

/-- TilePosition from `shared/schema.ts`: tileset id and the zero-based column
and row of one tile inside that tileset (valid values are non-negative). -/
structure TilePosition where
  tilesetId : Nat
  x : Nat
  y : Nat
deriving DecidableEq

/-- Layer from `shared/schema.ts`. -/
structure Layer where
  id : JStr
  name : JStr
  visible : Bool
  tiles : Grid
deriving DecidableEq

/-- MapSize from `shared/schema.ts`. -/
structure MapSize where
  width : Nat
  height : Nat
deriving DecidableEq

/-- DrawingTool from `shared/schema.ts`. -/
inductive DrawingTool where
  | smallBrush
  | largeBrush
  | fill
  | eraser
deriving DecidableEq

/-- The map topology, `'grid' | 'hex'` in the source. -/
inductive MapType where
  | grid
  | hex
deriving DecidableEq

/-- The multi-tile selection block of `EditorState` (`client/src/lib/mapTypes.ts`). -/
structure MultiTileSelection where
  width : Nat
  height : Nat
  tiles : List (List (Option TilePosition))
deriving DecidableEq

/-- EditorState from `client/src/lib/mapTypes.ts`. -/
structure EditorState where
  mapType : MapType
  tileSize : Nat
  mapSize : MapSize
  selectedTool : DrawingTool
  currentLayer : Nat
  layers : List Layer
  selectedTileset : Option Nat
  selectedTile : Option TilePosition
  multiTileSelection : MultiTileSelection
  cursorPosition : Option (Int × Int)
  zoomLevel : Nat
deriving DecidableEq

/-! ### Tile encoding -/

/-- Fuel-indexed core of the decimal rendering of a natural number (the shape
of core Lean's own decimal printer, specialized to base 10). -/
def natToCharsCore : Nat → Nat → JStr → JStr
  | 0, _, ds => ds
  | fuel + 1, n, ds =>
    let d := Nat.digitChar (n % 10)
    let n' := n / 10
    if n' = 0 then d :: ds else natToCharsCore fuel n' (d :: ds)

/-- Decimal rendering of a natural number, as JS `String(n)` produces for a
non-negative integer: big-endian decimal digits, with the single digit 0 for
zero. -/
def natToChars (n : Nat) : JStr :=
  natToCharsCore (n + 1) n []

/-- Whether a character is a decimal digit. -/
def isDigitChar (c : Char) : Bool :=
  48 ≤ c.toNat && c.toNat ≤ 57

/-- Parse a non-empty all-digit character list as a natural number, as JS
`Number(s)` does on the decimal strings produced by `String(n)`. -/
def charsToNat? (l : JStr) : Option Nat :=
  if l ≠ [] && l.all isDigitChar then
    some (Nat.ofDigits 10 ((l.map (fun c => c.toNat - 48)).reverse))
  else
    none

/-- Split a character list at every occurrence of `sep`, as JS
`s.split(sep)` does for a one-character separator. -/
def splitOnChar (sep : Char) : JStr → List JStr
  | [] => [[]]
  | c :: cs =>
    match splitOnChar sep cs with
    | [] => [[c]]
    | g :: gs => if c = sep then [] :: g :: gs else (c :: g) :: gs

/-- The tile encoding used by every brush and by the fill tool in
`applyToolAtPosition`: the template literal
tilesetId, comma, x, comma, y (`client/src/contexts/EditorContext.tsx`). -/
def encodeTile (t : TilePosition) : JStr :=
  natToChars t.tilesetId ++ (',' :: (natToChars t.x ++ (',' :: natToChars t.y)))

/-- The inverse parse used by `drawLayer` in the canvas utilities:
`tile.split(',').map(Number)` destructured into three components; it fails
unless the string is exactly three comma-separated decimal numbers. -/
def decodeTile (s : JStr) : Option TilePosition :=
  match (splitOnChar ',' s).map charsToNat? with
  | [some a, some b, some c] => some ⟨a, b, c⟩
  | _ => none

/-! ### Coordinate transforms (`src/unnamed/part_003`, canvas utilities) -/

/-- mapToCanvasPosition: map cell coordinates to canvas pixel coordinates.
The JS literals 1.15, 0.75 and the halving are exact over the rationals. -/
def mapToCanvasPosition (x y : Int) (tileSize : ℚ) (mapType : MapType) : ℚ × ℚ :=
  match mapType with
  | .grid => ((x : ℚ) * tileSize, (y : ℚ) * tileSize)
  | .hex =>
    let hexHeight : ℚ := tileSize
    let hexWidth : ℚ := tileSize * 1.15
    let yOffset : ℚ := if x % 2 = 0 then 0 else tileSize / 2
    ((x : ℚ) * (hexWidth * 0.75), (y : ℚ) * hexHeight + yOffset)

/-- canvasToMapPosition: canvas pixel coordinates to map cell coordinates.
`Math.floor` on a real value is `Int.floor`; the JS truthiness test
`hexColumn % 2` is `hexColumn % 2 ≠ 0`. -/
def canvasToMapPosition (x y : ℚ) (tileSize : ℚ) (mapType : MapType) : Int × Int :=
  match mapType with
  | .grid => (⌊x / tileSize⌋, ⌊y / tileSize⌋)
  | .hex =>
    let hexHeight : ℚ := tileSize
    let hexWidth : ℚ := tileSize * 1.15
    let hexColumn : Int := ⌊x / (hexWidth * 0.75)⌋
    let hexRow : Int := ⌊y / hexHeight - (if hexColumn % 2 ≠ 0 then (0.5 : ℚ) else 0)⌋
    (hexColumn, hexRow)

/-! ### Grid access helpers -/

/-- The target cell is inside the map: the negation of the bounds check
`x < 0 || y < 0 || x >= width || y >= height` of `applyToolAtPosition`. -/
def inBounds (w h : Nat) (p : Pos) : Prop :=
  0 ≤ p.1 ∧ 0 ≤ p.2 ∧ p.1 < (w : Int) ∧ p.2 < (h : Int)

instance (w h : Nat) (p : Pos) : Decidable (inBounds w h p) := by
  unfold inBounds; infer_instance

/-- Read `tiles[y][x]`.  The source only reads after its own bounds check, so
this total function agrees with the JS array access wherever it is used. -/
def getCell (t : Grid) (p : Pos) : Cell :=
  if 0 ≤ p.1 ∧ 0 ≤ p.2 then (t.getD p.2.toNat []).getD p.1.toNat none else none

/-- Write `tiles[y][x] = v`.  The source only writes after a bounds check, so
the out-of-range no-op branches are never exercised on well-formed states. -/
def setCell (t : Grid) (p : Pos) (v : Cell) : Grid :=
  if 0 ≤ p.1 ∧ 0 ≤ p.2 then t.set p.2.toNat ((t.getD p.2.toNat []).set p.1.toNat v) else t

/-- A grid is a dense `h × w` array, as the data-model invariant requires. -/
def WfGrid (w h : Nat) (t : Grid) : Prop :=
  t.length = h ∧ ∀ row ∈ t, row.length = w

instance (w h : Nat) (t : Grid) : Decidable (WfGrid w h t) := by
  unfold WfGrid; infer_instance

/-- Well-formed editor state: the active-layer index is valid and every
layer's tile array matches the map dimensions. -/
def WfState (s : EditorState) : Prop :=
  s.currentLayer < s.layers.length ∧
    ∀ l ∈ s.layers, WfGrid s.mapSize.width s.mapSize.height l.tiles

instance (s : EditorState) : Decidable (WfState s) := by
  unfold WfState; infer_instance

/-! ### Layer construction and map actions
(`client/src/lib/mapTypes.ts` and `client/src/contexts/EditorContext.tsx`) -/

/-- createEmptyLayer from `mapTypes.ts`.  The source draws a random id from
`Math.random().toString(36)`; the id is taken as a parameter here since the
randomness plays no role in any property. -/
def createEmptyLayer (width height : Nat) (name : JStr) (id : JStr) : Layer :=
  { id := id
    name := name
    visible := true
    tiles := List.replicate height (List.replicate width none) }

/-- createInitialEditorState from `mapTypes.ts` (defaults grid, 16, 64, 64). -/
def createInitialEditorState (mapType : MapType) (tileSize width height : Nat)
    (id : JStr) : EditorState :=
  { mapType := mapType
    tileSize := tileSize
    mapSize := ⟨width, height⟩
    selectedTool := .smallBrush
    currentLayer := 0
    layers := [createEmptyLayer width height
      ['L', 'a', 'y', 'e', 'r', ' ', '1', ' ', '(', 'B', 'a', 's', 'e', ')'] id]
    selectedTileset := none
    selectedTile := none
    multiTileSelection := ⟨1, 1, [[none]]⟩
    cursorPosition := none
    zoomLevel := 100 }

/-- createNewMap from `mapTypes.ts`: just `createInitialEditorState`. -/
def createNewMap (mapType : MapType) (tileSize width height : Nat) (id : JStr) :
    EditorState :=
  createInitialEditorState mapType tileSize width height id

/-- setMapType from `EditorContext.tsx`. -/
def setMapType (s : EditorState) (ty : MapType) : EditorState :=
  { s with mapType := ty }

/-- setTileSize from `EditorContext.tsx`. -/
def setTileSize (s : EditorState) (size : Nat) : EditorState :=
  { s with tileSize := size }

/-- setMapSize from `EditorContext.tsx`: stores the new size and rebuilds every
layer's tile array, keeping `layer.tiles[y][x]` when
`y < layer.tiles.length && x < layer.tiles[0].length` and filling with `null`
otherwise. -/
def setMapSize (s : EditorState) (width height : Nat) : EditorState :=
  { s with
    mapSize := ⟨width, height⟩
    layers := s.layers.map fun layer =>
      { layer with
        tiles := (List.range height).map fun y =>
          (List.range width).map fun x =>
            if y < layer.tiles.length ∧ x < (layer.tiles.getD 0 []).length then
              (layer.tiles.getD y []).getD x none
            else
              none } }

/-- addLayer from `EditorContext.tsx`: appends an empty layer named by
sequence position and selects it.  The name digits come from
`Layer ${layers.length + 1}`. -/
def addLayer (s : EditorState) (id : JStr) : EditorState :=
  let newLayer := createEmptyLayer s.mapSize.width s.mapSize.height
    (['L', 'a', 'y', 'e', 'r', ' '] ++ natToChars (s.layers.length + 1)) id
  { s with
    layers := s.layers ++ [newLayer]
    currentLayer := s.layers.length }

/-- JS `arr.splice(index, 1)` restricted to its return-ignored removal use:
a negative index counts from the end (clamped to 0), an index at or past the
end removes nothing. -/
def spliceRemoveOne (l : List Layer) (index : Int) : List Layer :=
  let start : Nat :=
    if index < 0 then ((l.length : Int) + index).toNat else min index.toNat l.length
  l.take start ++ l.drop (start + 1)

/-- removeLayer from `EditorContext.tsx`: refuses to remove the last layer,
otherwise splices out the layer at `index` and clamps the active index down
to the new last position when it falls off the end. -/
def removeLayer (s : EditorState) (index : Int) : EditorState :=
  if s.layers.length ≤ 1 then s
  else
    let newLayers := spliceRemoveOne s.layers index
    let newCurrentLayer :=
      if s.currentLayer ≥ newLayers.length then newLayers.length - 1 else s.currentLayer
    { s with layers := newLayers, currentLayer := newCurrentLayer }

/-- setCurrentLayer from `EditorContext.tsx`: stores the index with no
validation whatsoever. -/
def setCurrentLayerOp (s : EditorState) (index : Nat) : EditorState :=
  { s with currentLayer := index }

/-- toggleLayerVisibility from `EditorContext.tsx`.  The source reads
`newLayers[index].visible` with no bounds check; on a nonexistent index that
is a TypeError on `undefined`, modelled as `none` (the state update never
happens). -/
def toggleLayerVisibility (s : EditorState) (index : Int) : Option EditorState :=
  if h : 0 ≤ index ∧ index.toNat < s.layers.length then
    let l := s.layers.get ⟨index.toNat, h.2⟩
    some { s with layers := s.layers.set index.toNat { l with visible := !l.visible } }
  else
    none

/-- renameLayer from `EditorContext.tsx`.  On a valid index the layer's name
is replaced.  With a negative index the JS assignment `newLayers[-1] = obj`
stores a non-element property, leaving the layer list itself unchanged.  With
an index at or past the end the assignment extends the array with an object
holding only a name (the spread of `undefined`), which is not a well-formed
`Layer`; that corrupting outcome is modelled as `none`. -/
def renameLayer (s : EditorState) (index : Int) (name : JStr) : Option EditorState :=
  if h : 0 ≤ index ∧ index.toNat < s.layers.length then
    let l := s.layers.get ⟨index.toNat, h.2⟩
    some { s with layers := s.layers.set index.toNat { l with name := name } }
  else if index < 0 then
    some s
  else
    none

/-- setSelectedTool from `EditorContext.tsx`. -/
def setSelectedTool (s : EditorState) (tool : DrawingTool) : EditorState :=
  { s with selectedTool := tool }

/-- setSelectedTileset from `EditorContext.tsx`: also clears the selected tile. -/
def setSelectedTileset (s : EditorState) (id : Option Nat) : EditorState :=
  { s with selectedTileset := id, selectedTile := none }

/-- setSelectedTile from `EditorContext.tsx`: also resets the multi-tile
selection to the 1 × 1 block holding the tile. -/
def setSelectedTile (s : EditorState) (tile : Option TilePosition) : EditorState :=
  { s with
    selectedTile := tile
    multiTileSelection :=
      ⟨1, 1, match tile with | some t => [[some t]] | none => [[none]]⟩ }

/-- setMultiTileSelection from `EditorContext.tsx`: stores the block and makes
the first non-null entry (in row-major order) the selected tile. -/
def setMultiTileSelection (s : EditorState) (width height : Nat)
    (tiles : List (List (Option TilePosition))) : EditorState :=
  { s with
    multiTileSelection := ⟨width, height, tiles⟩
    selectedTile := (tiles.flatten.filterMap id).head? }

/-- setCursorPosition from `EditorContext.tsx`. -/
def setCursorPosition (s : EditorState) (x y : Int) : EditorState :=
  { s with cursorPosition := some (x, y) }

/-- setZoomLevel from `EditorContext.tsx`. -/
def setZoomLevel (s : EditorState) (level : Nat) : EditorState :=
  { s with zoomLevel := level }

/-! ### Paint engine (`applyToolAtPosition` in `EditorContext.tsx`) -/

/-- The 3 × 3 block offsets of the large brush, in the order of the source's
double loop (`dy` outer from -1 to 1, `dx` inner from -1 to 1), as
`(dx, dy)` pairs. -/
def brushOffsets : List (Int × Int) :=
  [(-1, -1), (0, -1), (1, -1), (-1, 0), (0, 0), (1, 0), (-1, 1), (0, 1), (1, 1)]

/-- One large-brush write: the source's per-neighbor bounds check
`nx >= 0 && ny >= 0 && nx < width && ny < height` guarding the assignment. -/
def brushStep (w h : Nat) (v : Cell) (t : Grid) (p : Pos) : Grid :=
  if inBounds w h p then setCell t p v else t

/-- The queue-based flood-fill loop of the fill tool: pop from the front
(`queue.shift()`), skip out-of-bounds cells, skip cells no longer holding the
target value, otherwise paint and push the four orthogonal neighbors at the
back.  One unit of fuel is one iteration of the source's `while` loop; the
termination theorem shows the stated fuel is never exhausted. -/
def floodLoop (w h : Nat) (target repl : Cell) :
    Nat → List Pos → Grid → Option Grid
  | 0, _, _ => none
  | _ + 1, [], t => some t
  | fuel + 1, p :: rest, t =>
    if inBounds w h p then
      if getCell t p = target then
        floodLoop w h target repl fuel
          (rest ++ [(p.1 + 1, p.2), (p.1 - 1, p.2), (p.1, p.2 + 1), (p.1, p.2 - 1)])
          (setCell t p repl)
      else
        floodLoop w h target repl fuel rest t
    else
      floodLoop w h target repl fuel rest t

/-- Fuel that the termination theorem proves sufficient for `floodLoop`
starting from a single-element queue on a well-formed `w × h` grid. -/
def floodFuel (w h : Nat) : Nat :=
  5 * w * h + 2

/-- An empty layer used as the `getD` default where the source indexes the
layer array; under `WfState` the default is never taken. -/
def defaultLayer : Layer :=
  { id := [], name := [], visible := true, tiles := [] }

/-- The common tail of `applyToolAtPosition`: store the freshly derived tile
array back into the active layer (`newLayers[prevState.currentLayer] =
{ ...currentLayer, tiles: newTiles }`). -/
def commitTiles (s : EditorState) (newTiles : Grid) : EditorState :=
  let currentLayer := s.layers.getD s.currentLayer defaultLayer
  { s with layers := s.layers.set s.currentLayer { currentLayer with tiles := newTiles } }

/-- applyToolAtPosition from `EditorContext.tsx`: bounds-check the target
cell, then dispatch on the selected tool.  Cloning the tile rows is the
identity on pure lists.  The fill tool captures the target value, returns the
state unchanged when it already equals the replacement, and otherwise runs
the queue-based flood fill. -/
def applyToolAtPosition (s : EditorState) (x y : Int) : EditorState :=
  let currentLayer := s.layers.getD s.currentLayer defaultLayer
  let newTiles := currentLayer.tiles
  let w := s.mapSize.width
  let h := s.mapSize.height
  if x < 0 ∨ y < 0 ∨ x ≥ (w : Int) ∨ y ≥ (h : Int) then s
  else
    match s.selectedTool with
    | .smallBrush =>
      match s.selectedTile with
      | some tile => commitTiles s (setCell newTiles (x, y) (some (encodeTile tile)))
      | none => commitTiles s newTiles
    | .largeBrush =>
      match s.selectedTile with
      | some tile =>
        commitTiles s (brushOffsets.foldl
          (fun t d => brushStep w h (some (encodeTile tile)) t (x + d.1, y + d.2))
          newTiles)
      | none => commitTiles s newTiles
    | .fill =>
      match s.selectedTile with
      | some tile =>
        let targetValue := getCell newTiles (x, y)
        let replacementValue : Cell := some (encodeTile tile)
        if targetValue = replacementValue then s
        else
          commitTiles s
            ((floodLoop w h targetValue replacementValue (floodFuel w h)
              [(x, y)] newTiles).getD newTiles)
      | none => commitTiles s newTiles
    | .eraser => commitTiles s (setCell newTiles (x, y) none)

/-! ### Specification-side relations -/

/-- Two cells are 4-orthogonally adjacent. -/
def Adj (p q : Pos) : Prop :=
  q = (p.1 + 1, p.2) ∨ q = (p.1 - 1, p.2) ∨ q = (p.1, p.2 + 1) ∨ q = (p.1, p.2 - 1)

/-- The 4-connected region of cells reachable from `s0` through in-bounds
cells whose value in `g` equals `target` (the start cell included, its
original value being `target`). -/
inductive Reach (w h : Nat) (g : Grid) (target : Cell) (s0 : Pos) : Pos → Prop
  | start : inBounds w h s0 → getCell g s0 = target → Reach w h g target s0 s0
  | step {p q : Pos} : Reach w h g target s0 p → Adj p q → inBounds w h q →
      getCell g q = target → Reach w h g target s0 q

/-- One application of any synchronous editor operation, as exposed by the
context provider.  `toggleLayerVisibility` and `renameLayer` contribute a
step only when they produce a state. -/
inductive EStep : EditorState → EditorState → Prop
  | setMapType (s : EditorState) (ty : MapType) : EStep s (setMapType s ty)
  | setTileSize (s : EditorState) (size : Nat) : EStep s (setTileSize s size)
  | setMapSize (s : EditorState) (width height : Nat) : EStep s (setMapSize s width height)
  | createNewMap (s : EditorState) (ty : MapType) (tileSize width height : Nat)
      (id : JStr) : EStep s (createNewMap ty tileSize width height id)
  | addLayer (s : EditorState) (id : JStr) : EStep s (addLayer s id)
  | removeLayer (s : EditorState) (index : Int) : EStep s (removeLayer s index)
  | setCurrentLayer (s : EditorState) (index : Nat) : EStep s (setCurrentLayerOp s index)
  | toggleLayerVisibility (s s' : EditorState) (index : Int)
      (h : toggleLayerVisibility s index = some s') : EStep s s'
  | renameLayer (s s' : EditorState) (index : Int) (name : JStr)
      (h : renameLayer s index name = some s') : EStep s s'
  | setSelectedTool (s : EditorState) (tool : DrawingTool) : EStep s (setSelectedTool s tool)
  | setSelectedTileset (s : EditorState) (id : Option Nat) : EStep s (setSelectedTileset s id)
  | setSelectedTile (s : EditorState) (tile : Option TilePosition) :
      EStep s (setSelectedTile s tile)
  | setMultiTileSelection (s : EditorState) (width height : Nat)
      (tiles : List (List (Option TilePosition))) :
      EStep s (setMultiTileSelection s width height tiles)
  | setCursorPosition (s : EditorState) (x y : Int) : EStep s (setCursorPosition s x y)
  | setZoomLevel (s : EditorState) (level : Nat) : EStep s (setZoomLevel s level)
  | applyToolAtPosition (s : EditorState) (x y : Int) : EStep s (applyToolAtPosition s x y)

/-- The same operations, but `setCurrentLayer` restricted to indices that are
valid positions in the current layer list. -/
inductive GStep : EditorState → EditorState → Prop
  | setMapType (s : EditorState) (ty : MapType) : GStep s (setMapType s ty)
  | setTileSize (s : EditorState) (size : Nat) : GStep s (setTileSize s size)
  | setMapSize (s : EditorState) (width height : Nat) : GStep s (setMapSize s width height)
  | createNewMap (s : EditorState) (ty : MapType) (tileSize width height : Nat)
      (id : JStr) : GStep s (createNewMap ty tileSize width height id)
  | addLayer (s : EditorState) (id : JStr) : GStep s (addLayer s id)
  | removeLayer (s : EditorState) (index : Int) : GStep s (removeLayer s index)
  | setCurrentLayer (s : EditorState) (index : Nat) (hv : index < s.layers.length) :
      GStep s (setCurrentLayerOp s index)
  | toggleLayerVisibility (s s' : EditorState) (index : Int)
      (h : toggleLayerVisibility s index = some s') : GStep s s'
  | renameLayer (s s' : EditorState) (index : Int) (name : JStr)
      (h : renameLayer s index name = some s') : GStep s s'
  | setSelectedTool (s : EditorState) (tool : DrawingTool) : GStep s (setSelectedTool s tool)
  | setSelectedTileset (s : EditorState) (id : Option Nat) : GStep s (setSelectedTileset s id)
  | setSelectedTile (s : EditorState) (tile : Option TilePosition) :
      GStep s (setSelectedTile s tile)
  | setMultiTileSelection (s : EditorState) (width height : Nat)
      (tiles : List (List (Option TilePosition))) :
      GStep s (setMultiTileSelection s width height tiles)
  | setCursorPosition (s : EditorState) (x y : Int) : GStep s (setCursorPosition s x y)
  | setZoomLevel (s : EditorState) (level : Nat) : GStep s (setZoomLevel s level)
  | applyToolAtPosition (s : EditorState) (x y : Int) : GStep s (applyToolAtPosition s x y)
/-! ### Grid lemmas -/

theorem getD_set_self {α : Type} (l : List α) (i : Nat) (a d : α) (h : i < l.length) :
    (l.set i a).getD i d = a := by
  rw [List.getD_eq_getElem?_getD, List.getElem?_set_self h, Option.getD_some]

theorem getD_set_ne {α : Type} (l : List α) {i j : Nat} (a d : α) (h : i ≠ j) :
    (l.set i a).getD j d = l.getD j d := by
  rw [List.getD_eq_getElem?_getD, List.getElem?_set_ne h, ← List.getD_eq_getElem?_getD]

theorem getD_eq_get {α : Type} (l : List α) (i : Nat) (d : α) (h : i < l.length) :
    l.getD i d = l.get ⟨i, h⟩ := by
  rw [List.getD_eq_getElem?_getD, List.getElem?_eq_getElem h, Option.getD_some]
  rfl

theorem getCell_of_neg {t : Grid} {p : Pos} (h : ¬(0 ≤ p.1 ∧ 0 ≤ p.2)) :
    getCell t p = none := by
  simp [getCell, h]

theorem setCell_of_neg {t : Grid} {p : Pos} {v : Cell} (h : ¬(0 ≤ p.1 ∧ 0 ≤ p.2)) :
    setCell t p v = t := by
  simp [setCell, h]

theorem pos_eq_of_toNat {p q : Pos} (hp : 0 ≤ p.1 ∧ 0 ≤ p.2) (hq : 0 ≤ q.1 ∧ 0 ≤ q.2)
    (h1 : p.1.toNat = q.1.toNat) (h2 : p.2.toNat = q.2.toNat) : p = q := by
  have e1 : p.1 = q.1 := by
    rw [← Int.toNat_of_nonneg hp.1, ← Int.toNat_of_nonneg hq.1, h1]
  have e2 : p.2 = q.2 := by
    rw [← Int.toNat_of_nonneg hp.2, ← Int.toNat_of_nonneg hq.2, h2]
  exact Prod.ext e1 e2

theorem getD_mem {α : Type} (l : List α) (i : Nat) (d : α) (h : i < l.length) :
    l.getD i d ∈ l := by
  rw [getD_eq_get l i d h]
  exact List.get_mem l i h

theorem wfGrid_setCell {w h : Nat} {t : Grid} {p : Pos} {v : Cell}
    (hwf : WfGrid w h t) : WfGrid w h (setCell t p v) := by
  unfold setCell
  split
  · rcases Nat.lt_or_ge p.2.toNat t.length with hlt | hge
    · refine ⟨by simpa using hwf.1, ?_⟩
      intro row hrow
      rcases List.mem_or_eq_of_mem_set hrow with hmem | heq
      · exact hwf.2 row hmem
      · subst heq
        rw [List.length_set]
        exact hwf.2 _ (getD_mem t p.2.toNat [] hlt)
    · rw [List.set_eq_of_length_le hge]
      exact hwf
  · exact hwf

theorem getCell_setCell_self {w h : Nat} {t : Grid} {p : Pos} {v : Cell}
    (hwf : WfGrid w h t) (hb : inBounds w h p) :
    getCell (setCell t p v) p = v := by
  obtain ⟨hx, hy, hxw, hyh⟩ := hb
  have hylt : p.2.toNat < t.length := by rw [hwf.1]; omega
  have hxlt : p.1.toNat < (t.getD p.2.toNat []).length := by
    rw [hwf.2 _ (getD_mem t p.2.toNat [] hylt)]; omega
  unfold getCell setCell
  rw [if_pos ⟨hx, hy⟩, if_pos ⟨hx, hy⟩, getD_set_self _ _ _ _ hylt,
    getD_set_self _ _ _ _ hxlt]

theorem getCell_setCell_ne {t : Grid} {p q : Pos} {v : Cell} (hne : q ≠ p) :
    getCell (setCell t p v) q = getCell t q := by
  by_cases hp : 0 ≤ p.1 ∧ 0 ≤ p.2
  · by_cases hq : 0 ≤ q.1 ∧ 0 ≤ q.2
    · unfold getCell setCell
      rw [if_pos hp, if_pos hq, if_pos hq]
      by_cases hrow : p.2.toNat = q.2.toNat
      · have hcol : p.1.toNat ≠ q.1.toNat := by
          intro hcol
          exact hne (pos_eq_of_toNat hq hp hcol.symm hrow.symm)
        rcases Nat.lt_or_ge p.2.toNat t.length with hlt | hge
        · rw [← hrow, getD_set_self _ _ _ _ hlt, getD_set_ne _ _ _ hcol]
        · rw [List.set_eq_of_length_le hge, ← hrow]
      · rw [getD_set_ne _ _ _ hrow]
    · unfold getCell
      rw [if_neg hq, if_neg hq]
  · rw [setCell_of_neg hp]

/-- Count of cells currently holding the target value, used as the
termination measure of the flood fill. -/
def cnt (target : Cell) (t : Grid) : Nat :=
  (t.map fun row => row.countP fun c => decide (c = target)).sum

theorem countP_set_of_pred {α : Type} (pred : α → Bool) :
    ∀ (l : List α) (i : Nat) (a : α) (hi : i < l.length),
      pred (l.get ⟨i, hi⟩) = true → pred a = false →
      l.countP pred = (l.set i a).countP pred + 1 := by
  intro l
  induction l with
  | nil => intro i a hi; simp at hi
  | cons x xs ih =>
    intro i a hi hpl hpa
    cases i with
    | zero =>
      simp only [List.get] at hpl
      simp [List.countP_cons, hpl, hpa]
    | succ j =>
      have hj : j < xs.length := by simpa using hi
      rw [List.get_cons_succ] at hpl
      have := ih j a hj hpl hpa
      simp only [List.set_cons_succ, List.countP_cons]
      omega

theorem sum_map_set {α : Type} (f : α → Nat) :
    ∀ (l : List α) (i : Nat) (a : α) (hi : i < l.length),
      ((l.set i a).map f).sum + f (l.get ⟨i, hi⟩) = (l.map f).sum + f a := by
  intro l
  induction l with
  | nil => intro i a hi; simp at hi
  | cons x xs ih =>
    intro i a hi
    cases i with
    | zero => simp [Nat.add_comm, Nat.add_left_comm]
    | succ j =>
      have hj : j < xs.length := by simpa using hi
      have := ih j a hj
      simp only [List.set_cons_succ, List.map_cons, List.sum_cons, List.get_cons_succ]
      omega

theorem cnt_setCell_lt {w h : Nat} {t : Grid} {p : Pos} {target v : Cell}
    (hwf : WfGrid w h t) (hb : inBounds w h p)
    (hget : getCell t p = target) (hv : v ≠ target) :
    cnt target (setCell t p v) < cnt target t := by
  obtain ⟨hx, hy, hxw, hyh⟩ := hb
  have hylt : p.2.toNat < t.length := by rw [hwf.1]; omega
  have hxlt : p.1.toNat < (t.getD p.2.toNat []).length := by
    rw [hwf.2 _ (getD_mem t p.2.toNat [] hylt)]; omega
  have hcell : (t.getD p.2.toNat []).get ⟨p.1.toNat, hxlt⟩ = target := by
    rw [getCell] at hget
    rw [if_pos ⟨hx, hy⟩] at hget
    rw [← getD_eq_get _ _ none hxlt]
    exact hget
  have hrowcnt :
      (t.getD p.2.toNat []).countP (fun c => decide (c = target)) =
      ((t.getD p.2.toNat []).set p.1.toNat v).countP (fun c => decide (c = target)) + 1 := by
    refine countP_set_of_pred _ _ _ _ hxlt ?_ ?_
    · simp only [decide_eq_true_eq]
      exact hcell
    · simp only [decide_eq_false_iff_not]
      exact hv
  have hsum := sum_map_set (fun row => row.countP fun c => decide (c = target)) t p.2.toNat
    ((t.getD p.2.toNat []).set p.1.toNat v) hylt
  have hget_row : t.get ⟨p.2.toNat, hylt⟩ = t.getD p.2.toNat [] :=
    (getD_eq_get t p.2.toNat [] hylt).symm
  unfold setCell cnt
  rw [if_pos ⟨hx, hy⟩]
  rw [hget_row] at hsum
  rw [hrowcnt] at hsum
  omega

theorem le_sum_map_of_le {α : Type} (f : α → Nat) (m : Nat) :
    ∀ l : List α, (∀ a ∈ l, f a ≤ m) → (l.map f).sum ≤ l.length * m := by
  intro l
  induction l with
  | nil => simp
  | cons x xs ih =>
    intro hb
    simp only [List.map_cons, List.sum_cons, List.length_cons]
    have h1 := hb x (by simp)
    have h2 := ih fun a ha => hb a (by simp [ha])
    calc f x + (xs.map f).sum ≤ m + xs.length * m := Nat.add_le_add h1 h2
    _ = (xs.length + 1) * m := by ring

theorem cnt_le {w h : Nat} {t : Grid} {target : Cell} (hwf : WfGrid w h t) :
    cnt target t ≤ w * h := by
  unfold cnt
  have hrow : ∀ row ∈ t, (row.countP fun c => decide (c = target)) ≤ w := by
    intro row hmem
    calc (row.countP fun c => decide (c = target)) ≤ row.length :=
        List.countP_le_length _
    _ = w := hwf.2 row hmem
  calc (t.map fun row => row.countP fun c => decide (c = target)).sum ≤ t.length * w :=
      le_sum_map_of_le _ _ t hrow
  _ = w * h := by rw [hwf.1, Nat.mul_comm]

/-! ### Flood-fill termination -/

theorem floodLoop_isSome {w h : Nat} {target repl : Cell} (hne : repl ≠ target) :
    ∀ (fuel : Nat) (queue : List Pos) (t : Grid), WfGrid w h t →
      5 * cnt target t + queue.length < fuel →
      (floodLoop w h target repl fuel queue t).isSome := by
  intro fuel
  induction fuel with
  | zero => intro queue t _ hm; omega
  | succ f ih =>
    intro queue t hwf hm
    match queue with
    | [] => simp [floodLoop]
    | p :: rest =>
      simp only [floodLoop]
      split
      · split
        · rename_i hb hv
          apply ih _ _ (wfGrid_setCell hwf)
          have hlt := cnt_setCell_lt hwf hb hv hne
          simp only [List.length_append, List.length_cons, List.length_nil] at hm ⊢
          omega
        · apply ih _ _ hwf
          simp only [List.length_cons] at hm
          omega
      · apply ih _ _ hwf
        simp only [List.length_cons] at hm
        omega

/-- Claim C2: the fill tool's traversal terminates on every finite grid within
an explicit bound: on a well-formed `w × h` grid, with the replacement value
different from the captured target value, the queue-based loop finishes
(returns a grid rather than exhausting its fuel) within `5 * w * h + 2`
iterations, because a cell is painted at most once. -/
theorem fill_terminates {w h : Nat} (g : Grid) (x y : Int) (repl : Cell)
    (hwf : WfGrid w h g) (hne : repl ≠ getCell g (x, y)) :
    (floodLoop w h (getCell g (x, y)) repl (floodFuel w h) [(x, y)] g).isSome := by
  apply floodLoop_isSome hne _ _ _ hwf
  have hc : cnt (getCell g (x, y)) g ≤ w * h := cnt_le hwf
  have hc5 : 5 * cnt (getCell g (x, y)) g ≤ 5 * (w * h) :=
    Nat.mul_le_mul_left 5 hc
  unfold floodFuel
  rw [Nat.mul_assoc]
  simp only [List.length_cons, List.length_nil]
  omega

/-! ### Flood-fill functional correctness -/

theorem mem_neighbors_iff_adj {p q : Pos} :
    q ∈ [(p.1 + 1, p.2), (p.1 - 1, p.2), (p.1, p.2 + 1), (p.1, p.2 - 1)] ↔ Adj p q := by
  simp [Adj]

theorem reach_spec {w h : Nat} {g : Grid} {target : Cell} {s0 p : Pos}
    (hr : Reach w h g target s0 p) : inBounds w h p ∧ getCell g p = target := by
  cases hr with
  | start hb hv => exact ⟨hb, hv⟩
  | step _ _ hb hv => exact ⟨hb, hv⟩

/-- The loop invariant of the flood fill, relating the working grid `t` and
the queue to the original grid `g`: the grid is still well-formed; every cell
is untouched or painted with the replacement and reachable; queued cells that
look fillable are reachable; every still-fillable neighbor of a painted cell
is queued; and the start cell is painted or queued. -/
def FillInv (w h : Nat) (g : Grid) (target repl : Cell) (s0 : Pos)
    (t : Grid) (queue : List Pos) : Prop :=
  WfGrid w h t ∧
  (∀ p, getCell t p = getCell g p ∨
    (getCell t p = repl ∧ getCell g p = target ∧ Reach w h g target s0 p)) ∧
  (∀ q ∈ queue, inBounds w h q → getCell g q = target → Reach w h g target s0 q) ∧
  (∀ p, getCell t p = repl → getCell g p = target →
    ∀ q, Adj p q → inBounds w h q → getCell t q = target → q ∈ queue) ∧
  (getCell t s0 = repl ∨ s0 ∈ queue)

theorem fillInv_init {w h : Nat} {g : Grid} {target repl : Cell} {s0 : Pos}
    (hwf : WfGrid w h g) (hrt : repl ≠ target)
    (hs0b : inBounds w h s0) (hs0v : getCell g s0 = target) :
    FillInv w h g target repl s0 g [s0] := by
  refine ⟨hwf, fun p => Or.inl rfl, ?_, ?_, Or.inr (by simp)⟩
  · intro q hq hb hv
    simp at hq
    subst hq
    exact Reach.start hs0b hs0v
  · intro p hrepl hv
    rw [hv] at hrepl
    exact absurd hrepl (Ne.symm hrt)

theorem fillInv_skip {w h : Nat} {g : Grid} {target repl : Cell} {s0 p : Pos}
    {t : Grid} {rest : List Pos}
    (hs0b : inBounds w h s0) (hs0v : getCell g s0 = target)
    (hinv : FillInv w h g target repl s0 t (p :: rest))
    (hskip : ¬ inBounds w h p ∨ getCell t p ≠ target) :
    FillInv w h g target repl s0 t rest := by
  obtain ⟨hwf, h2, h3, h4, h5⟩ := hinv
  refine ⟨hwf, h2, ?_, ?_, ?_⟩
  · intro q hq hb hv
    exact h3 q (List.mem_cons_of_mem _ hq) hb hv
  · intro p' hrepl hv q hadj hbq htq
    have hq := h4 p' hrepl hv q hadj hbq htq
    rcases List.mem_cons.mp hq with heq | hmem
    · subst heq
      rcases hskip with hnb | hnt
    

      · exact absurd hbq hnb
      · exact absurd htq hnt
    · exact hmem
  · rcases h5 with hpainted | hmem
    · exact Or.inl hpainted
    · rcases List.mem_cons.mp hmem with heq | hmem'
      · subst heq
        rcases hskip with hnb | hnt
        · exact absurd hs0b hnb
        · rcases h2 s0 with heq2 | hp
          · rw [heq2, hs0v] at hnt
            exact absurd rfl hnt
          · exact Or.inl hp.1
      · exact Or.inr hmem'

theorem fillInv_paint {w h : Nat} {g : Grid} {target repl : Cell} {s0 p : Pos}
    {t : Grid} {rest : List Pos}
    (hrt : repl ≠ target)
    (hinv : FillInv w h g target repl s0 t (p :: rest))
    (hb : inBounds w h p) (hv : getCell t p = target) :
    FillInv w h g target repl s0 (setCell t p repl)
      (rest ++ [(p.1 + 1, p.2), (p.1 - 1, p.2), (p.1, p.2 + 1), (p.1, p.2 - 1)]) := by
  obtain ⟨hwf, h2, h3, h4, h5⟩ := hinv
  have hgv : getCell g p = target := by
    rcases h2 p with heq | hp
    · rw [← heq]; exact hv
    · rw [hp.1] at hv; exact absurd hv hrt
  have hreach : Reach w h g target s0 p := h3 p (by simp) hb hgv
  refine ⟨wfGrid_setCell hwf, ?_, ?_, ?_, ?_⟩
  · intro q
    by_cases hq : q = p
    · subst hq
      exact Or.inr ⟨getCell_setCell_self hwf hb, hgv, hreach⟩
    · rw [getCell_setCell_ne hq]
      exact h2 q
  · intro q hq hbq hvq
    rcases List.mem_append.mp hq with hmem | hmem
    · exact h3 q (List.mem_cons_of_mem _ hmem) hbq hvq
    · exact Reach.step hreach (mem_neighbors_iff_adj.mp hmem) hbq hvq
  · intro p' hrepl hvg q hadj hbq htq
    have hqnep : q ≠ p := by
      intro hqp
      subst hqp
      rw [getCell_setCell_self hwf hb] at htq
      exact hrt htq
    rw [getCell_setCell_ne hqnep] at htq
    by_cases hp' : p' = p
    · subst hp'
      exact List.mem_append.mpr (Or.inr (mem_neighbors_iff_adj.mpr hadj))
    · rw [getCell_setCell_ne hp'] at hrepl
      have hq := h4 p' hrepl hvg q hadj hbq htq
      rcases List.mem_cons.mp hq with heq | hmem
      · exact absurd heq hqnep
      · exact List.mem_append.mpr (Or.inl hmem)
  · by_cases hs : s0 = p
    · subst hs
      exact Or.inl (getCell_setCell_self hwf hb)
    · rw [getCell_setCell_ne hs]
      rcases h5 with hpainted | hmem
      · exact Or.inl hpainted
      · rcases List.mem_cons.mp hmem with heq | hmem'
        · exact absurd heq hs
        · exact Or.inr (List.mem_append.mpr (Or.inl hmem'))

theorem fillInv_final {w h : Nat} {g : Grid} {target repl : Cell} {s0 : Pos}
    {t : Grid} (hinv : FillInv w h g target repl s0 t []) :
    (∀ p, Reach w h g target s0 p → getCell t p = repl) ∧
    (∀ p, ¬ Reach w h g target s0 p → getCell t p = getCell g p) ∧
    WfGrid w h t := by
  obtain ⟨hwf, h2, _, h4, h5⟩ := hinv
  have hpaint : ∀ p, Reach w h g target s0 p → getCell t p = repl := by
    intro p hr
    induction hr with
    | start hb hv =>
      rcases h5 with hpainted | hmem
      · exact hpainted
      · simp at hmem
    | step hr' hadj hbq hvq ih =>
      rename_i p' q
      have hvg' : getCell g p' = target := (reach_spec hr').2
      rcases h2 q with heq | hq
      · have htq : getCell t q = target := heq.trans hvq
        have hmem := h4 p' ih hvg' q hadj hbq htq
        simp at hmem
      · exact hq.1
  refine ⟨hpaint, ?_, hwf⟩
  intro p hnr
  rcases h2 p with heq | hp
  · exact heq
  · exact absurd hp.2.2 hnr

theorem floodLoop_spec {w h : Nat} {g : Grid} {target repl : Cell} {s0 : Pos}
    (hrt : repl ≠ target) (hs0b : inBounds w h s0) (hs0v : getCell g s0 = target) :
    ∀ (fuel : Nat) (queue : List Pos) (t t' : Grid),
      FillInv w h g target repl s0 t queue →
      floodLoop w h target repl fuel queue t = some t' →
      (∀ p, Reach w h g target s0 p → getCell t' p = repl) ∧
      (∀ p, ¬ Reach w h g target s0 p → getCell t' p = getCell g p) ∧
      WfGrid w h t' := by
  intro fuel
  induction fuel with
  | zero =>
    intro queue t t' _ heq
    simp [floodLoop] at heq
  | succ f ih =>
    intro queue t t' hinv heq
    match queue with
    | [] =>
      simp only [floodLoop, Option.some.injEq] at heq
      subst heq
      exact fillInv_final hinv
    | p :: rest =>
      simp only [floodLoop] at heq
      by_cases hb : inBounds w h p
      · rw [if_pos hb] at heq
        by_cases hv : getCell t p = target
        · rw [if_pos hv] at heq
          exact ih _ _ _ (fillInv_paint hrt hinv hb hv) heq
        · rw [if_neg hv] at heq
          exact ih _ _ _ (fillInv_skip hs0b hs0v hinv (Or.inr hv)) heq
      · rw [if_neg hb] at heq
        exact ih _ _ _ (fillInv_skip hs0b hs0v hinv (Or.inl hb)) heq

/-! ### Claim C1: fill tool functional correctness -/

theorem commitTiles_layers_length (s : EditorState) (t : Grid) :
    (commitTiles s t).layers.length = s.layers.length := by
  simp [commitTiles, List.length_set]

theorem commitTiles_layers_getD_ne (s : EditorState) (t : Grid) (j : Nat)
    (hj : j ≠ s.currentLayer) :
    (commitTiles s t).layers.getD j defaultLayer = s.layers.getD j defaultLayer := by
  simp only [commitTiles]
  exact getD_set_ne _ _ _ (Ne.symm hj)

theorem commitTiles_layers_getD_self (s : EditorState) (t : Grid)
    (hcur : s.currentLayer < s.layers.length) :
    (commitTiles s t).layers.getD s.currentLayer defaultLayer =
      { s.layers.getD s.currentLayer defaultLayer with tiles := t } := by
  simp only [commitTiles]
  exact getD_set_self _ _ _ _ hcur

/-- Claim C1: with a selected tile and an in-bounds target cell, the fill tool
replaces exactly the cells of the 4-connected region reachable from the
target through cells equal to the target's original value with the selected
tile's encoding, leaves every other cell (in the active layer and every other
layer) unchanged, and returns the state unchanged when the target cell
already holds the replacement encoding. -/
theorem fill_tool_correct (s : EditorState) (x y : Int) (tp : TilePosition)
    (hwf : WfState s) (htool : s.selectedTool = .fill)
    (htile : s.selectedTile = some tp)
    (hb : inBounds s.mapSize.width s.mapSize.height (x, y)) :
    (getCell (s.layers.getD s.currentLayer defaultLayer).tiles (x, y) =
        some (encodeTile tp) →
      applyToolAtPosition s x y = s) ∧
    (getCell (s.layers.getD s.currentLayer defaultLayer).tiles (x, y) ≠
        some (encodeTile tp) →
      (applyToolAtPosition s x y).layers.length = s.layers.length ∧
      (∀ j, j ≠ s.currentLayer →
        (applyToolAtPosition s x y).layers.getD j defaultLayer =
          s.layers.getD j defaultLayer) ∧
      (∀ p, Reach s.mapSize.width s.mapSize.height
          (s.layers.getD s.currentLayer defaultLayer).tiles
          (getCell (s.layers.getD s.currentLayer defaultLayer).tiles (x, y)) (x, y) p →
        getCell ((applyToolAtPosition s x y).layers.getD s.currentLayer
          defaultLayer).tiles p = some (encodeTile tp)) ∧
      (∀ p, ¬ Reach s.mapSize.width s.mapSize.height
          (s.layers.getD s.currentLayer defaultLayer).tiles
          (getCell (s.layers.getD s.currentLayer defaultLayer).tiles (x, y)) (x, y) p →
        getCell ((applyToolAtPosition s x y).layers.getD s.currentLayer
          defaultLayer).tiles p =
          getCell (s.layers.getD s.currentLayer defaultLayer).tiles p)) := by
  have hcond : ¬(x < 0 ∨ y < 0 ∨ x ≥ (s.mapSize.width : Int) ∨
      y ≥ (s.mapSize.height : Int)) := by
    obtain ⟨hx, hy, hxw, hyh⟩ := hb
    push_neg
    exact ⟨hx, hy, hxw, hyh⟩
  have happly : applyToolAtPosition s x y =
      (if getCell (s.layers.getD s.currentLayer defaultLayer).tiles (x, y) =
          some (encodeTile tp) then s
        else commitTiles s
          ((floodLoop s.mapSize.width s.mapSize.height
            (getCell (s.layers.getD s.currentLayer defaultLayer).tiles (x, y))
            (some (encodeTile tp))
            (floodFuel s.mapSize.width s.mapSize.height) [(x, y)]
            (s.layers.getD s.currentLayer defaultLayer).tiles).getD
            (s.layers.getD s.currentLayer defaultLayer).tiles)) := by
    simp only [applyToolAtPosition, htool, htile]
    rw [if_neg hcond]
  constructor
  · intro heq
    rw [happly, if_pos heq]
  · intro hne
    rw [happly, if_neg hne]
    have hlayer : s.layers.getD s.currentLayer defaultLayer ∈ s.layers :=
      getD_mem _ _ _ hwf.1
    have hwg : WfGrid s.mapSize.width s.mapSize.height
        (s.layers.getD s.currentLayer defaultLayer).tiles := hwf.2 _ hlayer
    have hrt : some (encodeTile tp) ≠
        getCell (s.layers.getD s.currentLayer defaultLayer).tiles (x, y) :=
      Ne.symm hne
    have hsome := fill_terminates
      (s.layers.getD s.currentLayer defaultLayer).tiles x y
      (some (encodeTile tp)) hwg hrt
    obtain ⟨t', ht'⟩ := Option.isSome_iff_exists.mp hsome
    rw [ht', Option.getD_some]
    have hspec := floodLoop_spec hrt hb rfl
      (floodFuel s.mapSize.width s.mapSize.height) [(x, y)]
      (s.layers.getD s.currentLayer defaultLayer).tiles t'
      (fillInv_init hwg hrt hb rfl) ht'
    refine ⟨commitTiles_layers_length s t', ?_, ?_, ?_⟩
    · intro j hj
      exact commitTiles_layers_getD_ne s t' j hj
    · intro p hr
      rw [commitTiles_layers_getD_self s t' hwf.1]
      exact hspec.1 p hr
    · intro p hnr
      rw [commitTiles_layers_getD_self s t' hwf.1]
      exact hspec.2.1 p hnr

/-- A concrete 5 × 5 all-empty editor state with the fill tool and tile
`(1, 2, 3)` selected, used by the concrete witnesses. -/
def exFillState : EditorState :=
  { createInitialEditorState .grid 16 5 5 ['i'] with
    selectedTool := .fill
    selectedTile := some ⟨1, 2, 3⟩ }

/-- Witness for C1: fill at `(2, 2)` on the all-empty 5 × 5 layer paints all
25 cells with the encoding of `(1, 2, 3)`, and repeating the same fill (the
target cell then already holds the replacement) returns the state unchanged,
the second fact obtained from the claim theorem at that concrete state. -/
theorem fill_tool_correct_witness :
    (((applyToolAtPosition exFillState 2 2).layers.getD 0 defaultLayer).tiles =
      List.replicate 5 (List.replicate 5 (some (encodeTile ⟨1, 2, 3⟩)))) ∧
    applyToolAtPosition (applyToolAtPosition exFillState 2 2) 2 2 =
      applyToolAtPosition exFillState 2 2 :=
  ⟨by decide,
    (fill_tool_correct (applyToolAtPosition exFillState 2 2) 2 2 ⟨1, 2, 3⟩
      (by decide) (by decide) (by decide) (by decide)).1 (by decide)⟩

/-- Witness for C2: the fill traversal completes within its fuel on a
300 × 300 fully-empty layer. -/
theorem fill_terminates_witness :
    (floodLoop 300 300
      (getCell (List.replicate 300 (List.replicate 300 (none : Cell))) (150, 150))
      (some (encodeTile ⟨1, 2, 3⟩)) (floodFuel 300 300) [(150, 150)]
      (List.replicate 300 (List.replicate 300 (none : Cell)))).isSome :=
  fill_terminates _ 150 150 _
    (by
      refine ⟨List.length_replicate 300 _, ?_⟩
      intro row hrow
      rw [List.eq_of_mem_replicate hrow]
      exact List.length_replicate 300 _)
    (by decide)

/-! ### Claim C3: grid coordinate transform round trip -/

/-- Claim C3: for grid topology, converting a cell to pixels and back is the
identity for every non-negative cell coordinate and positive tile size, and
any pixel point strictly inside the cell's square maps back to the cell. -/
theorem grid_transform_roundtrip (col row : Int) (ts : ℚ)
    (hcol : 0 ≤ col) (hrow : 0 ≤ row) (hts : 0 < ts) :
    canvasToMapPosition (mapToCanvasPosition col row ts .grid).1
      (mapToCanvasPosition col row ts .grid).2 ts .grid = (col, row) ∧
    (∀ px py : ℚ, (col : ℚ) * ts < px → px < ((col : ℚ) + 1) * ts →
      (row : ℚ) * ts < py → py < ((row : ℚ) + 1) * ts →
      canvasToMapPosition px py ts .grid = (col, row)) := by
  have hfloor : ∀ (z : Int) (p : ℚ), (z : ℚ) * ts ≤ p → p < ((z : ℚ) + 1) * ts →
      ⌊p / ts⌋ = z := by
    intro z p hlo hhi
    rw [Int.floor_eq_iff]
    constructor
    · rw [le_div_iff₀ hts]
      exact hlo
    · rw [div_lt_iff₀ hts]
      exact hhi
  constructor
  · simp only [mapToCanvasPosition, canvasToMapPosition]
    rw [Prod.mk.injEq]
    constructor
    · exact hfloor col _ le_rfl (by nlinarith)
    · exact hfloor row _ le_rfl (by nlinarith)
  · intro px py h1 h2 h3 h4
    simp only [canvasToMapPosition]
    rw [Prod.mk.injEq]
    exact ⟨hfloor col px h1.le h2, hfloor row py h3.le h4⟩

/-- Witness for C3 at `col = 3`, `row = 4`, tile size 16, and the interior
point `(50, 70)`. -/
theorem grid_transform_roundtrip_witness :
    canvasToMapPosition (mapToCanvasPosition 3 4 16 .grid).1
      (mapToCanvasPosition 3 4 16 .grid).2 16 .grid = (3, 4) ∧
    canvasToMapPosition 50 70 16 .grid = (3, 4) :=
  ⟨(grid_transform_roundtrip 3 4 16 (by norm_num) (by norm_num) (by norm_num)).1,
    (grid_transform_roundtrip 3 4 16 (by norm_num) (by norm_num) (by norm_num)).2
      50 70 (by norm_num) (by norm_num) (by norm_num) (by norm_num)⟩

/-! ### Claim C6: tile encoding round trip -/

theorem natToCharsCore_eq :
    ∀ (fuel n : Nat) (acc : JStr), n < fuel →
      natToCharsCore fuel n acc =
        (if n = 0 then ['0'] else (Nat.digits 10 n).reverse.map Nat.digitChar) ++ acc := by
  intro fuel
  induction fuel with
  | zero => intro n acc hlt; omega
  | succ f ih =>
    intro n acc hlt
    simp only [natToCharsCore]
    by_cases h10 : n / 10 = 0
    · rw [if_pos h10]
      have hn : n < 10 := by omega
      by_cases hz : n = 0
      · subst hz
        simp [Nat.digitChar]
      · rw [if_neg hz]
        have hd : Nat.digits 10 n = [n] := by
          rw [Nat.digits_def' (by norm_num : (1 : Nat) < 10) (Nat.pos_of_ne_zero hz)]
          rw [Nat.mod_eq_of_lt hn, h10]
          simp
        rw [hd, Nat.mod_eq_of_lt hn]
        simp
    · rw [if_neg h10]
      have hpos : 0 < n := by omega
      have hnz : ¬n = 0 := by omega
      have hlt' : n / 10 < f := by
        have := Nat.div_lt_self hpos (by norm_num : (1 : Nat) < 10)
        omega
      rw [ih _ _ hlt', if_neg h10, if_neg hnz,
        Nat.digits_def' (by norm_num : (1 : Nat) < 10) hpos]
      simp [List.append_assoc]

theorem natToChars_eq (n : Nat) :
    natToChars n =
      if n = 0 then ['0'] else (Nat.digits 10 n).reverse.map Nat.digitChar := by
  rw [natToChars, natToCharsCore_eq (n + 1) n [] (Nat.lt_succ_self n), List.append_nil]

theorem digitChar_facts :
    ∀ d : Nat, d < 10 →
      isDigitChar (Nat.digitChar d) = true ∧
      (Nat.digitChar d).toNat - 48 = d ∧ Nat.digitChar d ≠ ',' := by
  decide

theorem mem_natToChars {n : Nat} {c : Char} (hc : c ∈ natToChars n) :
    ∃ d : Nat, d < 10 ∧ c = Nat.digitChar d := by
  rw [natToChars_eq] at hc
  by_cases hz : n = 0
  · rw [if_pos hz] at hc
    simp at hc
    exact ⟨0, by norm_num, by simp [hc, Nat.digitChar]⟩
  · rw [if_neg hz] at hc
    rw [List.mem_map] at hc
    obtain ⟨d, hd, hcd⟩ := hc
    rw [List.mem_reverse] at hd
    exact ⟨d, Nat.digits_lt_base (by norm_num) hd, hcd.symm⟩

theorem natToChars_ne_nil (n : Nat) : natToChars n ≠ [] := by
  rw [natToChars_eq]
  by_cases hz : n = 0
  · simp [hz]
  · rw [if_neg hz]
    simp [Nat.digits_ne_nil_iff_ne_zero.mpr hz]

theorem natToChars_no_comma (n : Nat) : ∀ c ∈ natToChars n, c ≠ ',' := by
  intro c hc
  obtain ⟨d, hd, hcd⟩ := mem_natToChars hc
  rw [hcd]
  exact (digitChar_facts d hd).2.2

theorem charsToNat?_natToChars (n : Nat) : charsToNat? (natToChars n) = some n := by
  have hall : (natToChars n).all isDigitChar = true := by
    rw [List.all_eq_true]
    intro c hc
    obtain ⟨d, hd, hcd⟩ := mem_natToChars hc
    rw [hcd]
    exact (digitChar_facts d hd).1
  unfold charsToNat?
  rw [if_pos (by simp [natToChars_ne_nil n, hall])]
  congr 1
  rw [natToChars_eq]
  by_cases hz : n = 0
  · subst hz
    decide
  · rw [if_neg hz]
    rw [List.map_map]
    have hmap : (Nat.digits 10 n).reverse.map
        ((fun c : Char => c.toNat - 48) ∘ Nat.digitChar) = (Nat.digits 10 n).reverse := by
      have : ∀ d ∈ (Nat.digits 10 n).reverse,
          ((fun c : Char => c.toNat - 48) ∘ Nat.digitChar) d = id d := by
        intro d hd
        rw [List.mem_reverse] at hd
        exact (digitChar_facts d (Nat.digits_lt_base (by norm_num) hd)).2.1
      rw [List.map_congr_left this, List.map_id]
    rw [hmap, List.reverse_reverse, Nat.ofDigits_digits]

theorem splitOnChar_cons (sep c : Char) (cs : JStr) :
    splitOnChar sep (c :: cs) =
      match splitOnChar sep cs with
      | [] => [[c]]
      | g :: gs => if c = sep then [] :: g :: gs else (c :: g) :: gs := rfl

theorem splitOnChar_ne_nil (sep : Char) (l : JStr) : splitOnChar sep l ≠ [] := by
  cases l with
  | nil => simp [splitOnChar]
  | cons c cs =>
    rw [splitOnChar_cons]
    cases hr : splitOnChar sep cs with
    | nil => simp
    | cons g gs =>
      by_cases hc : c = sep
      · simp [hc]
      · simp [hc]

theorem splitOnChar_no_sep (sep : Char) :
    ∀ l : JStr, (∀ c ∈ l, c ≠ sep) → splitOnChar sep l = [l] := by
  intro l
  induction l with
  | nil => intro _; rfl
  | cons c cs ih =>
    intro hns
    have hc : c ≠ sep := hns c (by simp)
    have hcs := ih fun d hd => hns d (by simp [hd])
    rw [splitOnChar_cons, hcs]
    simp [hc]

theorem splitOnChar_append (sep : Char) :
    ∀ (a b : JStr), (∀ c ∈ a, c ≠ sep) →
      splitOnChar sep (a ++ sep :: b) = a :: splitOnChar sep b := by
  intro a
  induction a with
  | nil =>
    intro b _
    rw [List.nil_append, splitOnChar_cons]
    cases hr : splitOnChar sep b with
    | nil => exact absurd hr (splitOnChar_ne_nil sep b)
    | cons g gs => simp
  | cons c a' ih =>
    intro b hns
    have hc : c ≠ sep := hns c (by simp)
    have ha' := ih b fun d hd => hns d (by simp [hd])
    rw [List.cons_append, splitOnChar_cons, ha']
    simp [hc]

/-- Claim C6: the tile encoding round-trips exactly: decoding the stored
comma-joined string produced by encoding any valid TileRef yields the same
triple back. -/
theorem decode_encode_tile (t : TilePosition) : decodeTile (encodeTile t) = some t := by
  unfold decodeTile encodeTile
  rw [splitOnChar_append ',' _ _ (natToChars_no_comma t.tilesetId),
    splitOnChar_append ',' _ _ (natToChars_no_comma t.x),
    splitOnChar_no_sep ',' _ (natToChars_no_comma t.y)]
  simp [charsToNat?_natToChars]

/-! ### Claim C4: map resize -/

theorem getD_map {α β : Type} (f : α → β) (l : List α) (i : Nat) (d : β) (d' : α)
    (hi : i < l.length) : (l.map f).getD i d = f (l.getD i d') := by
  rw [List.getD_eq_getElem?_getD, List.getElem?_map, List.getD_eq_getElem?_getD,
    List.getElem?_eq_getElem hi]
  simp

theorem getD_range (n i : Nat) (d : Nat) (hi : i < n) :
    (List.range n).getD i d = i := by
  rw [List.getD_eq_getElem?_getD, List.getElem?_range hi, Option.getD_some]

/-- Claim C4: `setMapSize` updates the map configuration and rebuilds every
layer's tile array to `newHeight × newWidth`, preserving every cell in the
overlap with the old dimensions and filling every other cell with empty. -/
theorem resize_map_correct (s : EditorState) (width height : Nat)
    (hwf : WfState s) (hh : 0 < s.mapSize.height) :
    (setMapSize s width height).mapSize = ⟨width, height⟩ ∧
    (setMapSize s width height).layers.length = s.layers.length ∧
    (∀ i, i < s.layers.length →
      ((setMapSize s width height).layers.getD i defaultLayer).id =
        (s.layers.getD i defaultLayer).id ∧
      ((setMapSize s width height).layers.getD i defaultLayer).name =
        (s.layers.getD i defaultLayer).name ∧
      ((setMapSize s width height).layers.getD i defaultLayer).visible =
        (s.layers.getD i defaultLayer).visible ∧
      WfGrid width height ((setMapSize s width height).layers.getD i defaultLayer).tiles ∧
      (∀ x y : Nat, x < width → y < height →
        getCell ((setMapSize s width height).layers.getD i defaultLayer).tiles
            ((x : Int), (y : Int)) =
          if x < s.mapSize.width ∧ y < s.mapSize.height then
            getCell ((s.layers.getD i defaultLayer).tiles) ((x : Int), (y : Int))
          else none)) := by
  refine ⟨rfl, by simp [setMapSize], ?_⟩
  intro i hi
  have hmap : (setMapSize s width height).layers.getD i defaultLayer =
      { s.layers.getD i defaultLayer with
        tiles := (List.range height).map fun y =>
          (List.range width).map fun x =>
            if y < (s.layers.getD i defaultLayer).tiles.length ∧
                x < ((s.layers.getD i defaultLayer).tiles.getD 0 []).length then
              ((s.layers.getD i defaultLayer).tiles.getD y []).getD x none
            else
              none } := by
    simp only [setMapSize]
    exact getD_map _ _ _ _ defaultLayer hi
  rw [hmap]
  have hwl : WfGrid s.mapSize.width s.mapSize.height
      (s.layers.getD i defaultLayer).tiles :=
    hwf.2 _ (getD_mem _ _ _ hi)
  have hrow0 : ((s.layers.getD i defaultLayer).tiles.getD 0 []).length =
      s.mapSize.width := by
    apply hwl.2
    apply getD_mem
    rw [hwl.1]
    exact hh
  refine ⟨rfl, rfl, rfl, ?_, ?_⟩
  · constructor
    · simp
    · intro row hrow
      rw [List.mem_map] at hrow
      obtain ⟨yy, _, hyy⟩ := hrow
      rw [← hyy]
      simp
  · intro x y hx hy
    have hgx : (0 : Int) ≤ (x : Int) := Int.natCast_nonneg x
    have hgy : (0 : Int) ≤ (y : Int) := Int.natCast_nonneg y
    rw [getCell, if_pos ⟨hgx, hgy⟩]
    simp only [Int.toNat_natCast]
    rw [getD_map _ _ _ _ 0 (by simpa using hy), getD_range _ _ _ hy]
    rw [getD_map _ _ _ _ 0 (by simpa using hx), getD_range _ _ _ hx]
    rw [hwl.1, hrow0]
    by_cases hcond : y < s.mapSize.height ∧ x < s.mapSize.width
    · rw [if_pos hcond, if_pos ⟨hcond.2, hcond.1⟩, getCell, if_pos ⟨hgx, hgy⟩]
      simp only [Int.toNat_natCast]
    · rw [if_neg hcond, if_neg fun hc => hcond ⟨hc.2, hc.1⟩]

/-- A concrete 4 × 4 editor state holding the encoding of tile `(1, 0, 0)` at
cell `(1, 1)`, used by the resize witness. -/
def exResizeState : EditorState :=
  applyToolAtPosition
    { createInitialEditorState .grid 16 4 4 ['r'] with
      selectedTool := .smallBrush
      selectedTile := some ⟨1, 0, 0⟩ } 1 1

/-- Witness for C4: resizing the 4 × 4 state to 2 × 2 keeps the cell at
`(1, 1)`, and resizing to 6 × 6 keeps it while a fresh cell reads empty. -/
theorem resize_map_correct_witness :
    ((setMapSize exResizeState 2 2).mapSize = ⟨2, 2⟩ ∧
      (getCell ((setMapSize exResizeState 2 2).layers.getD 0 defaultLayer).tiles
          ((1 : Nat), (1 : Nat)) =
        if (1 : Nat) < exResizeState.mapSize.width ∧
            (1 : Nat) < exResizeState.mapSize.height then
          getCell ((exResizeState.layers.getD 0 defaultLayer).tiles)
            ((1 : Nat), (1 : Nat))
        else none)) ∧
    (getCell ((setMapSize exResizeState 6 6).layers.getD 0 defaultLayer).tiles
        ((1 : Nat), (1 : Nat)) =
      if (1 : Nat) < exResizeState.mapSize.width ∧
          (1 : Nat) < exResizeState.mapSize.height then
        getCell ((exResizeState.layers.getD 0 defaultLayer).tiles)
          ((1 : Nat), (1 : Nat))
      else none) ∧
    (getCell ((setMapSize exResizeState 6 6).layers.getD 0 defaultLayer).tiles
        ((5 : Nat), (5 : Nat)) =
      if (5 : Nat) < exResizeState.mapSize.width ∧
          (5 : Nat) < exResizeState.mapSize.height then
        getCell ((exResizeState.layers.getD 0 defaultLayer).tiles)
          ((5 : Nat), (5 : Nat))
      else none) :=
  ⟨⟨(resize_map_correct exResizeState 2 2 (by decide) (by decide)).1,
    ((resize_map_correct exResizeState 2 2 (by decide) (by decide)).2.2 0
      (by decide)).2.2.2.2 1 1 (by decide) (by decide)⟩,
    ((resize_map_correct exResizeState 6 6 (by decide) (by decide)).2.2 0
      (by decide)).2.2.2.2 1 1 (by decide) (by decide),
    ((resize_map_correct exResizeState 6 6 (by decide) (by decide)).2.2 0
      (by decide)).2.2.2.2 5 5 (by decide) (by decide)⟩

/-! ### Claim C5: bounds handling of the tools -/

theorem brush_foldl_getCell {w h : Nat} {v : Cell} :
    ∀ (offs : List (Int × Int)) (t : Grid), WfGrid w h t → ∀ (cx cy : Int) (q : Pos),
      getCell (offs.foldl (fun acc d => brushStep w h v acc (cx + d.1, cy + d.2)) t) q =
        if (∃ d ∈ offs, q = (cx + d.1, cy + d.2)) ∧ inBounds w h q then v
        else getCell t q := by
  intro offs
  induction offs with
  | nil =>
    intro t _ cx cy q
    simp
  | cons d0 offs ih =>
    intro t hwf cx cy q
    rw [List.foldl_cons]
    have hwf1 : WfGrid w h (brushStep w h v t (cx + d0.1, cy + d0.2)) := by
      unfold brushStep
      split
      · exact wfGrid_setCell hwf
      · exact hwf
    rw [ih _ hwf1 cx cy q]
    by_cases hq : inBounds w h q
    · by_cases hrest : ∃ d ∈ offs, q = (cx + d.1, cy + d.2)
      · obtain ⟨d, hd, hdq⟩ := hrest
        rw [if_pos ⟨⟨d, hd, hdq⟩, hq⟩, if_pos ⟨⟨d, List.mem_cons_of_mem _ hd, hdq⟩, hq⟩]
      · rw [if_neg fun hcon => hrest hcon.1]
        by_cases hd0 : q = (cx + d0.1, cy + d0.2)
        · rw [if_pos ⟨⟨d0, List.mem_cons_self _ _, hd0⟩, hq⟩]
          unfold brushStep
          rw [if_pos (hd0 ▸ hq), hd0]
          exact getCell_setCell_self hwf (hd0 ▸ hq)
        · rw [if_neg ?hcond]
          case hcond =>
            rintro ⟨⟨d, hd, hdq⟩, _⟩
            rcases List.mem_cons.mp hd with heq | hmem
            · exact hd0 (heq ▸ hdq)
            · exact hrest ⟨d, hmem, hdq⟩
          unfold brushStep
          split
          · exact getCell_setCell_ne hd0
          · rfl
    · rw [if_neg fun hcon => hq hcon.2, if_neg fun hcon => hq hcon.2]
      unfold brushStep
      split
      · rename_i hbp
        have hd0 : q ≠ (cx + d0.1, cy + d0.2) := fun heq => hq (heq ▸ hbp)
        exact getCell_setCell_ne hd0
      · rfl

theorem mem_brushOffsets_iff (q : Pos) (x y : Int) :
    (∃ d ∈ brushOffsets, q = (x + d.1, y + d.2)) ↔
      (q.1 = x - 1 ∨ q.1 = x ∨ q.1 = x + 1) ∧
      (q.2 = y - 1 ∨ q.2 = y ∨ q.2 = y + 1) := by
  constructor
  · rintro ⟨d, hd, rfl⟩
    simp only [brushOffsets, List.mem_cons, List.not_mem_nil, or_false] at hd
    rcases hd with h|h|h|h|h|h|h|h|h <;> subst h <;> constructor <;> simp <;> omega
  · rintro ⟨hx, hy⟩
    have ha : q.1 - x = -1 ∨ q.1 - x = 0 ∨ q.1 - x = 1 := by omega
    have hb : q.2 - y = -1 ∨ q.2 - y = 0 ∨ q.2 - y = 1 := by omega
    refine ⟨(q.1 - x, q.2 - y), ?_, ?_⟩
    · rcases ha with h1|h1|h1 <;> rcases hb with h2|h2|h2 <;>
        simp [brushOffsets, h1, h2]
    · rw [Prod.ext_iff]
      constructor <;> dsimp <;> omega

/-- Claim C5: a tool application whose target cell fails the bounds check
returns the state unchanged for every tool; for the large brush with an
in-bounds center, exactly the in-bounds cells of the 3 × 3 block around the
center receive the encoding and every other cell keeps its value, so
individually out-of-bounds neighbors are merely skipped. -/
theorem tool_bounds_noop (s : EditorState) (x y : Int) (hwf : WfState s) :
    ((x < 0 ∨ y < 0 ∨ x ≥ (s.mapSize.width : Int) ∨ y ≥ (s.mapSize.height : Int)) →
      applyToolAtPosition s x y = s) ∧
    (∀ tp : TilePosition, s.selectedTool = .largeBrush → s.selectedTile = some tp →
      inBounds s.mapSize.width s.mapSize.height (x, y) →
      ∀ q : Pos,
        getCell ((applyToolAtPosition s x y).layers.getD s.currentLayer
            defaultLayer).tiles q =
          if ((q.1 = x - 1 ∨ q.1 = x ∨ q.1 = x + 1) ∧
              (q.2 = y - 1 ∨ q.2 = y ∨ q.2 = y + 1)) ∧
              inBounds s.mapSize.width s.mapSize.height q then
            some (encodeTile tp)
          else getCell ((s.layers.getD s.currentLayer defaultLayer).tiles) q) := by
  constructor
  · intro hoob
    simp only [applyToolAtPosition]
    rw [if_pos hoob]
  · intro tp htool htile hb q
    have hcond : ¬(x < 0 ∨ y < 0 ∨ x ≥ (s.mapSize.width : Int) ∨
        y ≥ (s.mapSize.height : Int)) := by
      obtain ⟨hx, hy, hxw, hyh⟩ := hb
      push_neg
      exact ⟨hx, hy, hxw, hyh⟩
    have hwl : WfGrid s.mapSize.width s.mapSize.height
        (s.layers.getD s.currentLayer defaultLayer).tiles :=
      hwf.2 _ (getD_mem _ _ _ hwf.1)
    have happly : applyToolAtPosition s x y =
        commitTiles s (brushOffsets.foldl
          (fun acc d => brushStep s.mapSize.width s.mapSize.height
            (some (encodeTile tp)) acc (x + d.1, y + d.2))
          (s.layers.getD s.currentLayer defaultLayer).tiles) := by
      simp only [applyToolAtPosition, htool, htile]
      rw [if_neg hcond]
    rw [happly, commitTiles_layers_getD_self s _ hwf.1]
    rw [brush_foldl_getCell brushOffsets _ hwl x y q]
    by_cases hblock : (∃ d ∈ brushOffsets, q = (x + d.1, y + d.2)) ∧
        inBounds s.mapSize.width s.mapSize.height q
    · rw [if_pos hblock, if_pos ⟨(mem_brushOffsets_iff q x y).mp hblock.1, hblock.2⟩]
    · rw [if_neg hblock, if_neg fun hcon =>
        hblock ⟨(mem_brushOffsets_iff q x y).mpr hcon.1, hcon.2⟩]

/-- A concrete 5 × 5 all-empty state with the large brush and tile `(1, 0, 0)`
selected, used by the bounds witness. -/
def exBrushState : EditorState :=
  { createInitialEditorState .grid 16 5 5 ['b'] with
    selectedTool := .largeBrush
    selectedTile := some ⟨1, 0, 0⟩ }

/-- Witness for C5: an out-of-bounds target leaves the state unchanged, and a
large brush at the corner `(0, 0)` writes the in-bounds cell `(1, 1)` while
the out-of-bounds neighbor `(-1, -1)` keeps its (empty) value. -/
theorem tool_bounds_noop_witness :
    applyToolAtPosition exBrushState (-1) 2 = exBrushState ∧
    getCell ((applyToolAtPosition exBrushState 0 0).layers.getD 0
        defaultLayer).tiles (1, 1) =
      (if (((1 : Int) = 0 - 1 ∨ (1 : Int) = 0 ∨ (1 : Int) = 0 + 1) ∧
          ((1 : Int) = 0 - 1 ∨ (1 : Int) = 0 ∨ (1 : Int) = 0 + 1)) ∧
          inBounds exBrushState.mapSize.width exBrushState.mapSize.height (1, 1) then
        some (encodeTile ⟨1, 0, 0⟩)
      else getCell ((exBrushState.layers.getD 0 defaultLayer).tiles) (1, 1)) ∧
    getCell ((applyToolAtPosition exBrushState 0 0).layers.getD 0
        defaultLayer).tiles (-1, -1) =
      (if (((-1 : Int) = 0 - 1 ∨ (-1 : Int) = 0 ∨ (-1 : Int) = 0 + 1) ∧
          ((-1 : Int) = 0 - 1 ∨ (-1 : Int) = 0 ∨ (-1 : Int) = 0 + 1)) ∧
          inBounds exBrushState.mapSize.width exBrushState.mapSize.height (-1, -1) then
        some (encodeTile ⟨1, 0, 0⟩)
      else getCell ((exBrushState.layers.getD 0 defaultLayer).tiles) (-1, -1)) :=
  ⟨(tool_bounds_noop exBrushState (-1) 2 (by decide)).1 (by decide),
    (tool_bounds_noop exBrushState 0 0 (by decide)).2 ⟨1, 0, 0⟩ rfl rfl
      (by decide) (1, 1),
    (tool_bounds_noop exBrushState 0 0 (by decide)).2 ⟨1, 0, 0⟩ rfl rfl
      (by decide) (-1, -1)⟩

/-! ### Claim C7: removeLayer -/

/-- Claim C7: removing a layer is a no-op on a single-layer state, and on a
state with more than one layer and an existing index it removes exactly the
layer at that index and leaves the active-layer index valid. -/
theorem remove_layer_correct :
    (∀ (s : EditorState) (i : Int), s.layers.length = 1 → removeLayer s i = s) ∧
    (∀ (s : EditorState) (i : Int), 1 < s.layers.length → 0 ≤ i →
      i.toNat < s.layers.length →
      (removeLayer s i).layers =
        s.layers.take i.toNat ++ s.layers.drop (i.toNat + 1) ∧
      (removeLayer s i).layers.length = s.layers.length - 1 ∧
      (removeLayer s i).currentLayer < (removeLayer s i).layers.length) := by
  constructor
  · intro s i hlen
    unfold removeLayer
    rw [if_pos (by omega)]
  · intro s i hlen hnn hlt
    have hsplice : spliceRemoveOne s.layers i =
        s.layers.take i.toNat ++ s.layers.drop (i.toNat + 1) := by
      unfold spliceRemoveOne
      rw [if_neg (by omega), Nat.min_eq_left (Nat.le_of_lt hlt)]
    have hslen : (spliceRemoveOne s.layers i).length = s.layers.length - 1 := by
      rw [hsplice]
      rw [List.length_append, List.length_take, List.length_drop]
      omega
    unfold removeLayer
    rw [if_neg (by omega)]
    refine ⟨hsplice, hslen, ?_⟩
    simp only [hslen]
    split
    · omega
    · omega

/-- A concrete two-layer state used by the removal and invariant witnesses. -/
def exTwoLayerState : EditorState :=
  addLayer (createInitialEditorState .grid 16 4 4 ['a']) ['b']

/-- Witness for C7: removing from a single-layer state changes nothing, and
removing layer 0 of a two-layer state leaves one layer and a valid active
index. -/
theorem remove_layer_correct_witness :
    removeLayer (createInitialEditorState .grid 16 4 4 ['a']) 0 =
      createInitialEditorState .grid 16 4 4 ['a'] ∧
    (removeLayer exTwoLayerState 0).layers =
      exTwoLayerState.layers.take 0 ++ exTwoLayerState.layers.drop 1 ∧
    (removeLayer exTwoLayerState 0).layers.length = exTwoLayerState.layers.length - 1 ∧
    (removeLayer exTwoLayerState 0).currentLayer <
      (removeLayer exTwoLayerState 0).layers.length :=
  ⟨remove_layer_correct.1 (createInitialEditorState .grid 16 4 4 ['a']) 0 (by decide),
    remove_layer_correct.2 exTwoLayerState 0 (by decide) (by decide) (by decide)⟩

/-! ### Claim C8: operations given a nonexistent layer index (corrected) -/

/-- Counterexample to C8 as stated: the nonexistent (negative) layer index -1
passed to removeLayer does not leave the state identical — JS `splice`
interprets it from the end of the array and removes the last layer. -/
theorem invalid_index_counterexample :
    exTwoLayerState.layers.length = 2 ∧
    (removeLayer exTwoLayerState (-1)).layers.length = 1 ∧
    removeLayer exTwoLayerState (-1) ≠ exTwoLayerState := by
  refine ⟨by decide, by decide, ?_⟩
  intro hcon
  have := congrArg (fun s : EditorState => s.layers.length) hcon
  simp at this
  revert this
  decide

/-- Claim C8 amended: toggle-visibility with a nonexistent index fails (a
TypeError on an undefined element) before any mutation; rename with a
negative index leaves the state unchanged while rename past the end fails to
produce a well-formed state (the source extends the array with a malformed
object); remove with an index at or past the end leaves the layer list
unchanged — but remove with a negative index counts from the end of the list
and removes an existing layer, so the uniform reject-before-mutate property
does not hold. -/
theorem invalid_index_ops_amended :
    (∀ (s : EditorState) (i : Int), ¬(0 ≤ i ∧ i.toNat < s.layers.length) →
      toggleLayerVisibility s i = none) ∧
    (∀ (s : EditorState) (i : Int) (name : JStr), i < 0 →
      renameLayer s i name = some s) ∧
    (∀ (s : EditorState) (i : Int) (name : JStr), 0 ≤ i →
      s.layers.length ≤ i.toNat → renameLayer s i name = none) ∧
    (∀ (s : EditorState) (i : Int), 0 ≤ i → s.layers.length ≤ i.toNat →
      (removeLayer s i).layers = s.layers) ∧
    (∀ (s : EditorState) (i : Int), i < 0 → 1 < s.layers.length →
      (removeLayer s i).layers =
        s.layers.take ((s.layers.length : Int) + i).toNat ++
          s.layers.drop (((s.layers.length : Int) + i).toNat + 1)) := by
  refine ⟨?_, ?_, ?_, ?_, ?_⟩
  · intro s i hinv
    unfold toggleLayerVisibility
    rw [dif_neg hinv]
  · intro s i name hneg
    unfold renameLayer
    rw [dif_neg (by omega), if_pos hneg]
  · intro s i name hnn hge
    unfold renameLayer
    rw [dif_neg (by omega), if_neg (by omega)]
  · intro s i hnn hge
    unfold removeLayer
    split
    · rfl
    · simp only [spliceRemoveOne]
      rw [if_neg (by omega), Nat.min_eq_right (by omega)]
      rw [List.drop_eq_nil_of_le (by omega), List.take_of_length_le (by omega),
        List.append_nil]
  · intro s i hneg hlen
    unfold removeLayer
    rw [if_neg (by omega)]
    simp only [spliceRemoveOne]
    rw [if_pos hneg]

/-- Witness for the amended C8 at concrete states: toggle at 5 fails, rename
at -1 returns the state, rename at 5 fails, remove at 5 keeps the layers, and
remove at -1 removes the trailing layer of the two-layer state. -/
theorem invalid_index_ops_amended_witness :
    toggleLayerVisibility exTwoLayerState 5 = none ∧
    renameLayer exTwoLayerState (-1) ['n'] = some exTwoLayerState ∧
    renameLayer exTwoLayerState 5 ['n'] = none ∧
    (removeLayer exTwoLayerState 5).layers = exTwoLayerState.layers ∧
    (removeLayer exTwoLayerState (-1)).layers =
      exTwoLayerState.layers.take ((exTwoLayerState.layers.length : Int) +
        (-1)).toNat ++
        exTwoLayerState.layers.drop (((exTwoLayerState.layers.length : Int) +
          (-1)).toNat + 1) :=
  ⟨invalid_index_ops_amended.1 exTwoLayerState 5 (by decide),
    invalid_index_ops_amended.2.1 exTwoLayerState (-1) ['n'] (by decide),
    invalid_index_ops_amended.2.2.1 exTwoLayerState 5 ['n'] (by decide) (by decide),
    invalid_index_ops_amended.2.2.2.1 exTwoLayerState 5 (by decide) (by decide),
    invalid_index_ops_amended.2.2.2.2 exTwoLayerState (-1) (by decide) (by decide)⟩

/-! ### Claim C9: the active-layer index invariant (corrected) -/

theorem applyTool_shape (s : EditorState) (x y : Int) :
    (applyToolAtPosition s x y).currentLayer = s.currentLayer ∧
    (applyToolAtPosition s x y).layers.length = s.layers.length := by
  by_cases hoob : x < 0 ∨ y < 0 ∨ x ≥ (s.mapSize.width : Int) ∨
      y ≥ (s.mapSize.height : Int)
  · simp only [applyToolAtPosition]
    rw [if_pos hoob]
    exact ⟨rfl, rfl⟩
  · have hcommit : ∀ t : Grid, (commitTiles s t).currentLayer = s.currentLayer ∧
        (commitTiles s t).layers.length = s.layers.length :=
      fun t => ⟨rfl, by simp [commitTiles, List.length_set]⟩
    cases htool : s.selectedTool <;> cases htile : s.selectedTile <;>
        (simp only [applyToolAtPosition, htool, htile]; rw [if_neg hoob]) <;>
      first
      | exact hcommit _
      | (split <;> first | exact ⟨rfl, rfl⟩ | exact hcommit _)

theorem spliceRemoveOne_length_bounds (l : List Layer) (i : Int) :
    l.length - 1 ≤ (spliceRemoveOne l i).length ∧
    (spliceRemoveOne l i).length ≤ l.length := by
  unfold spliceRemoveOne
  split <;>
    (rw [List.length_append, List.length_take, List.length_drop]; omega)

theorem gstep_preserves_active {s s' : EditorState} (hstep : GStep s s')
    (hinv : s.currentLayer < s.layers.length) :
    s'.currentLayer < s'.layers.length := by
  cases hstep with
  | setMapType ty => exact hinv
  | setTileSize size => exact hinv
  | setMapSize width height => simpa [setMapSize] using hinv
  | createNewMap ty tileSize width height id =>
    simp [createNewMap, createInitialEditorState]
  | addLayer id => simp [addLayer]
  | removeLayer index =>
    unfold removeLayer
    split
    · exact hinv
    · have hb := spliceRemoveOne_length_bounds s.layers index
      simp only
      split <;> omega
  | setCurrentLayer index hv => exact hv
  | toggleLayerVisibility s2 index h =>
    unfold toggleLayerVisibility at h
    split at h
    · cases h
      simpa [List.length_set] using hinv
    · cases h
  | renameLayer s2 index name h =>
    unfold renameLayer at h
    split at h
    · cases h
      simpa [List.length_set] using hinv
    · split at h
      · cases h
        exact hinv
      · cases h
  | setSelectedTool tool => exact hinv
  | setSelectedTileset id => exact hinv
  | setSelectedTile tile => exact hinv
  | setMultiTileSelection width height tiles => exact hinv
  | setCursorPosition x y => exact hinv
  | setZoomLevel level => exact hinv
  | applyToolAtPosition x y =>
    have hs := applyTool_shape s x y
    rw [hs.1, hs.2]
    exact hinv

/-- A concrete initial editor state (the source's defaults: grid, 16, 64 × 64). -/
def exInitState : EditorState :=
  createInitialEditorState .grid 16 64 64 ['s']

/-- Counterexample to C9 as stated: `setCurrentLayer` stores its argument with
no validation, so a single editor operation from the initial state reaches a
state whose active-layer index is not a valid index into the layer list. -/
theorem active_layer_invariant_counterexample :
    Relation.ReflTransGen EStep exInitState (setCurrentLayerOp exInitState 5) ∧
    ¬((setCurrentLayerOp exInitState 5).currentLayer <
      (setCurrentLayerOp exInitState 5).layers.length) :=
  ⟨Relation.ReflTransGen.single (EStep.setCurrentLayer exInitState 5), by decide⟩

/-- Claim C9 amended: the active-layer index is a valid index into the layer
list in every state reachable from an initial state by the editor's
operations, provided `setCurrentLayer` is only invoked with an index that is
a valid position in the current layer list (the operation itself performs no
validation). -/
theorem active_layer_invariant_amended (ty : MapType) (ts w h : Nat) (id : JStr)
    (s' : EditorState)
    (hreach : Relation.ReflTransGen GStep (createInitialEditorState ty ts w h id) s') :
    s'.currentLayer < s'.layers.length := by
  induction hreach with
  | refl => simp [createInitialEditorState]
  | tail _ hstep ih => exact gstep_preserves_active hstep ih

/-- Witness for the amended C9: the state reached by adding a layer to the
concrete initial state keeps the invariant. -/
theorem active_layer_invariant_amended_witness :
    (addLayer exInitState ['t']).currentLayer <
      (addLayer exInitState ['t']).layers.length :=
  active_layer_invariant_amended .grid 16 64 64 ['s'] _
    (Relation.ReflTransGen.single (GStep.addLayer exInitState ['t']))

/-! ### Claim C10: brush-family tools without a selected tile -/

/-- Claim C10: with no selected tile, applying the small brush, large brush,
or fill tool at an in-bounds target leaves the tile contents of every cell of
every layer equal to their prior values. -/
theorem no_selection_noop (s : EditorState) (x y : Int) (hwf : WfState s)
    (hnone : s.selectedTile = none)
    (htool : s.selectedTool = .smallBrush ∨ s.selectedTool = .largeBrush ∨
      s.selectedTool = .fill)
    (hb : inBounds s.mapSize.width s.mapSize.height (x, y)) :
    ∀ j : Nat, ((applyToolAtPosition s x y).layers.getD j defaultLayer).tiles =
      (s.layers.getD j defaultLayer).tiles := by
  have hcond : ¬(x < 0 ∨ y < 0 ∨ x ≥ (s.mapSize.width : Int) ∨
      y ≥ (s.mapSize.height : Int)) := by
    obtain ⟨hx, hy, hxw, hyh⟩ := hb
    push_neg
    exact ⟨hx, hy, hxw, hyh⟩
  have happly : applyToolAtPosition s x y =
      commitTiles s (s.layers.getD s.currentLayer defaultLayer).tiles := by
    rcases htool with ht | ht | ht <;>
      · simp only [applyToolAtPosition, ht, hnone]
        rw [if_neg hcond]
  intro j
  rw [happly]
  by_cases hj : j = s.currentLayer
  · subst hj
    rw [commitTiles_layers_getD_self s _ hwf.1]
  · rw [commitTiles_layers_getD_ne s _ j hj]

/-- A concrete 5 × 5 state with the fill tool selected but no selected tile. -/
def exNoTileState : EditorState :=
  { createInitialEditorState .grid 16 5 5 ['n'] with
    selectedTool := .fill
    selectedTile := none }

/-- Witness for C10: at the concrete selection-less state, the fill tool at
`(2, 2)` leaves the single layer's tile array unchanged. -/
theorem no_selection_noop_witness :
    ((applyToolAtPosition exNoTileState 2 2).layers.getD 0 defaultLayer).tiles =
      (exNoTileState.layers.getD 0 defaultLayer).tiles :=
  no_selection_noop exNoTileState 2 2 (by decide) rfl (Or.inr (Or.inr rfl))
    (by decide) 0
